import Mathlib

/-!
Verification of the expense-categorizer repository (src/load_data.py,
src/features.py, src/predict.py) against its natural-language specification.

The feature pipeline in src/features.py is a direct call to scikit-learn:
`TfidfVectorizer(stop_words="english")` followed by `fit_transform` /
`transform`, with every other parameter left at its documented default
(`lowercase=True`, `token_pattern=r"(?u)\b\w\w+\b"`, `norm="l2"`,
`use_idf=True`, `smooth_idf=True`, `sublinear_tf=False`).  The embedding
below models that call faithfully: the default analyzer (lowercase, maximal
runs of word characters of length at least two, English stop-word removal),
the alphabetically sorted vocabulary built by `CountVectorizer._count_vocab`,
the smoothed idf formula of `TfidfTransformer`, and the row-wise L2
normalization applied by `TfidfTransformer.transform`.  Floating-point
values are modelled as real numbers.
-/

namespace ExpenseCategorizer

/-! ### Error model

Python exceptions raised (or claimed to be raised) around the pipeline.
The source itself only ever raises `ValueError` (src/features.py,
src/predict.py, and scikit-learn's "empty vocabulary" check) and
scikit-learn's `NotFittedError`.  The constructors `emptyCorpusError` and
`alreadyFittedError` correspond to exception classes named by the
specification that exist nowhere in the code; they are included so that
claims about them can be stated and decided. -/
inductive PyError where
  | valueError (msg : String)
  | notFittedError (msg : String)
  | emptyCorpusError
  | alreadyFittedError
deriving DecidableEq, Repr

/-- Decidable equality of fallible results, for deciding concrete claims. -/
instance {ε α : Type} [DecidableEq ε] [DecidableEq α] :
    DecidableEq (Except ε α) := fun a b =>
  match a, b with
  | .error e, .error f =>
    if h : e = f then .isTrue (by rw [h]) else .isFalse (by simp [h])
  | .error _, .ok _ => .isFalse (by simp)
  | .ok _, .error _ => .isFalse (by simp)
  | .ok x, .ok y =>
    if h : x = y then .isTrue (by rw [h]) else .isFalse (by simp [h])

/-! ### Tokenizer

scikit-learn's default analyzer for `TfidfVectorizer(stop_words="english")`:
lowercase the document, extract maximal runs of word characters
(`token_pattern=r"(?u)\b\w\w+\b"`, i.e. runs of alphanumerics/underscore of
length at least 2), then drop tokens belonging to the built-in English
stop-word list. -/

/-- A word character in the sense of the regex `\w` (ASCII fragment). -/
def isWordChar (c : Char) : Bool := c.isAlphanum || c = '_'

/-- Python's `str.lower` on the character list (basic-latin lowercasing,
the fragment exercised by ASCII expense descriptions). -/
def pyLower (s : String) : String :=
  String.mk (s.data.map Char.toLower)

/-- Close the token accumulated in `acc` (in reverse): tokens shorter than
two characters are discarded by the pattern `\w\w+`. -/
def closeToken (acc : List Char) : List String :=
  if 2 ≤ acc.length then [String.mk acc.reverse] else []

/-- Scan the character list, accumulating maximal runs of word characters. -/
def scanTokens : List Char → List Char → List String
  | [], acc => closeToken acc
  | c :: cs, acc =>
    if isWordChar c then scanTokens cs (c :: acc)
    else closeToken acc ++ scanTokens cs []

/-- Tokens produced by the default `token_pattern` on the lowercased text,
before stop-word removal. -/
def rawTokens (s : String) : List String :=
  scanTokens (pyLower s).data []

/-- scikit-learn's built-in `ENGLISH_STOP_WORDS` list (the fixed frozenset
in `sklearn/feature_extraction/_stop_words.py`). -/
def englishStopWords : List String :=
  ["a", "about", "above", "across", "after", "afterwards", "again",
   "against", "all", "almost", "alone", "along", "already", "also",
   "although", "always", "am", "among", "amongst", "amoungst", "amount",
   "an", "and", "another", "any", "anyhow", "anyone", "anything", "anyway",
   "anywhere", "are", "around", "as", "at", "back", "be", "became",
   "because", "become", "becomes", "becoming", "been", "before",
   "beforehand", "behind", "being", "below", "beside", "besides",
   "between", "beyond", "bill", "both", "bottom", "but", "by", "call",
   "can", "cannot", "cant", "co", "con", "could", "couldnt", "cry", "de",
   "describe", "detail", "do", "done", "down", "due", "during", "each",
   "eg", "eight", "either", "eleven", "else", "elsewhere", "empty",
   "enough", "etc", "even", "ever", "every", "everyone", "everything",
   "everywhere", "except", "few", "fifteen", "fifty", "fill", "find",
   "fire", "first", "five", "for", "former", "formerly", "forty", "found",
   "four", "from", "front", "full", "further", "get", "give", "go", "had",
   "has", "hasnt", "have", "he", "hence", "her", "here", "hereafter",
   "hereby", "herein", "hereupon", "hers", "herself", "him", "himself",
   "his", "how", "however", "hundred", "i", "ie", "if", "in", "inc",
   "indeed", "interest", "into", "is", "it", "its", "itself", "keep",
   "last", "latter", "latterly", "least", "less", "ltd", "made", "many",
   "may", "me", "meanwhile", "might", "mill", "mine", "more", "moreover",
   "most", "mostly", "move", "much", "must", "my", "myself", "name",
   "namely", "neither", "never", "nevertheless", "next", "nine", "no",
   "nobody", "none", "noone", "nor", "not", "nothing", "now", "nowhere",
   "of", "off", "often", "on", "once", "one", "only", "onto", "or",
   "other", "others", "otherwise", "our", "ours", "ourselves", "out",
   "over", "own", "part", "per", "perhaps", "please", "put", "rather",
   "re", "same", "see", "seem", "seemed", "seeming", "seems", "serious",
   "several", "she", "should", "show", "side", "since", "sincere", "six",
   "sixty", "so", "some", "somehow", "someone", "something", "sometime",
   "sometimes", "somewhere", "still", "such", "system", "take", "ten",
   "than", "that", "the", "their", "them", "themselves", "then", "thence",
   "there", "thereafter", "thereby", "therefore", "therein", "thereupon",
   "these", "they", "thick", "thin", "third", "this", "those", "though",
   "three", "through", "throughout", "thru", "thus", "to", "together",
   "too", "top", "toward", "towards", "twelve", "twenty", "two", "un",
   "under", "until", "up", "upon", "us", "very", "via", "was", "we",
   "well", "were", "what", "whatever", "when", "whence", "whenever",
   "where", "whereafter", "whereas", "whereby", "wherein", "whereupon",
   "wherever", "whether", "which", "while", "whither", "who", "whoever",
   "whole", "whom", "whose", "why", "will", "with", "within", "without",
   "would", "yet", "you", "your", "yours", "yourself", "yourselves"]

/-- The full analyzer: pattern tokens of the lowercased text with English
stop words removed. -/
def tokenize (s : String) : List String :=
  (rawTokens s).filter (fun t => !(englishStopWords.contains t))

/-! ### Vocabulary Builder

`CountVectorizer._count_vocab` accumulates terms into a dict in encounter
order, then reassigns indices in ascending sorted order of the terms
(`sorted_features = sorted(vocabulary.items())`).  Python's `sorted`
compares strings lexicographically by code point; we model that comparison
on the character lists directly. -/

/-- Lexicographic (code-point) comparison of character lists: Python's
`<=` on strings. -/
def charListLe : List Char → List Char → Bool
  | [], _ => true
  | _ :: _, [] => false
  | a :: as, b :: bs =>
    if a < b then true
    else if b < a then false
    else charListLe as bs

/-- Python's `<=` on strings, as a proposition. -/
def strleP (a b : String) : Prop := charListLe a.data b.data = true

instance : DecidableRel strleP := fun a b =>
  inferInstanceAs (Decidable (charListLe a.data b.data = true))

/-- The concatenated token stream of the corpus, in document order. -/
def corpusTerms (docs : List String) : List String :=
  (docs.map tokenize).flatten

/-- Distinct elements in order of first appearance (first-seen-wins),
accumulating seen elements. -/
def firstSeenDistinct : List String → List String → List String
  | [], _ => []
  | t :: ts, seen =>
    if seen.contains t then firstSeenDistinct ts seen
    else t :: firstSeenDistinct ts (t :: seen)

/-- The fitted vocabulary as an ordered list: position = integer index.
scikit-learn collects terms in encounter order and then sorts them, so the
index of a term is its rank in the sorted distinct-term list. -/
def vocabList (docs : List String) : List String :=
  List.insertionSort strleP (firstSeenDistinct (corpusTerms docs) [])

/-- Document frequency: number of documents of the corpus containing the
term at least once (each list entry is one document). -/
def docFreq (docs : List String) (t : String) : Nat :=
  (docs.filter (fun d => (tokenize d).contains t)).length

/-- Raw term count of `t` in one document (the `tf` of the tf-idf product). -/
def termCount (doc : String) (t : String) : Nat :=
  (tokenize doc).count t

/-! ### Fitted state and the vectorizer state machine

A fitted `TfidfVectorizer` is determined by its vocabulary, the number of
training documents and the per-term document frequencies (scikit-learn
stores the derived float idf vector; we store the integer statistics and
derive the real-valued weights from them, which keeps the state decidable). -/

structure FittedState where
  vocab : List String
  nDocs : Nat
  dfs : List Nat
deriving DecidableEq, Repr

/-- Outcome of fitting on a corpus: scikit-learn raises
`ValueError("empty vocabulary; perhaps the documents only contain stop
words")` when no term survives the analyzer, and otherwise freezes the
sorted vocabulary together with the document statistics. -/
def fitResult (docs : List String) : Except PyError FittedState :=
  let vocab := vocabList docs
  if vocab.isEmpty then
    .error (.valueError "empty vocabulary; perhaps the documents only contain stop words")
  else
    .ok { vocab := vocab, nDocs := docs.length, dfs := vocab.map (docFreq docs) }

/-- A `TfidfVectorizer` instance: either freshly constructed (`none`) or
carrying the frozen state of its last successful fit. -/
structure TfidfVectorizer where
  fitted : Option FittedState
deriving DecidableEq, Repr

/-- `TfidfVectorizer(stop_words="english")`: a fresh, unfitted instance. -/
def TfidfVectorizer.new : TfidfVectorizer := ⟨none⟩

/-- `fit` (the fitting half of `fit_transform` in
src/features.py:extract_features).  scikit-learn's `fit` never consults the
previous fitted state: calling it again simply refits on the new corpus. -/
def TfidfVectorizer.fit (_v : TfidfVectorizer) (docs : List String) :
    Except PyError TfidfVectorizer :=
  match fitResult docs with
  | .error e => .error e
  | .ok st => .ok ⟨some st⟩

/-! ### TF-IDF weighting and transform

`TfidfTransformer` with the defaults `use_idf=True`, `smooth_idf=True`,
`sublinear_tf=False`, `norm="l2"`: each row is the vector of raw term
counts times the smoothed idf weights, then the whole row is divided by
its Euclidean norm (rows that are entirely zero are left as zero by
`sklearn.preprocessing.normalize`). -/

/-- The smoothed idf weight computed by `TfidfTransformer.fit`:
`idf = ln((1 + n) / (1 + df)) + 1`. -/
noncomputable def idfWeight (n df : Nat) : ℝ :=
  Real.log ((1 + (n : ℝ)) / (1 + (df : ℝ))) + 1

/-- The idf weight attached to vocabulary index `j` of a fitted state. -/
noncomputable def FittedState.idf (st : FittedState) (j : Nat) : ℝ :=
  idfWeight st.nDocs (st.dfs.getD j 0)

/-- The unnormalized tf-idf row of one document: entry `j` is the raw count
of vocabulary term `j` in the document times that term's idf weight. -/
noncomputable def rawTfidfRow (st : FittedState) (doc : String) : List ℝ :=
  (List.range st.vocab.length).map
    (fun j => (termCount doc (st.vocab.getD j "") : ℝ) * st.idf j)

/-- Euclidean norm of a row. -/
noncomputable def l2Norm (v : List ℝ) : ℝ :=
  Real.sqrt ((v.map (fun x => x ^ 2)).sum)

/-- `sklearn.preprocessing.normalize(X, norm="l2")` on one row: divide by
the Euclidean norm, leaving all-zero rows unchanged. -/
noncomputable def normalizeL2 (v : List ℝ) : List ℝ :=
  if l2Norm v = 0 then v else v.map (fun x => x / l2Norm v)

/-- `transform` on one document with a fitted state. -/
noncomputable def FittedState.transformRow (st : FittedState) (doc : String) : List ℝ :=
  normalizeL2 (rawTfidfRow st doc)

/-- `TfidfVectorizer.transform` called on an instance: scikit-learn's
`_check_vocabulary` raises `NotFittedError` when no fit has happened;
otherwise the frozen state is read (never written) to produce one row per
document. -/
noncomputable def TfidfVectorizer.transform (v : TfidfVectorizer)
    (docs : List String) : Except PyError (List (List ℝ)) :=
  match v.fitted with
  | none => .error (.notFittedError "Vocabulary not fitted or provided")
  | some st => .ok (docs.map st.transformRow)

/-! ### Specification-side vocabulary order (for the refinement claim)

The spec asserts the Vocabulary Builder assigns indices in order of first
appearance.  This definition follows the spec's words, to be compared with
`vocabList` (which follows the code). -/

/-- Modelled from the spec's words: each distinct term indexed "in order of
first appearance (tie-break: first-seen-wins; order across documents is the
input sequence order, and within a document is left-to-right token
order)". -/
def specFirstAppearanceVocab (docs : List String) : List String :=
  firstSeenDistinct (corpusTerms docs) []

/-! ### Classifier and confidence resolution (src/predict.py)

src/predict.py loads `models/expense_model.pkl`; the training script that
produces it is not part of src/.  Probability rows are modelled with
rational values (the floats of `predict_proba`). -/

/-- `numpy.ndarray.max` over a probability row (src/predict.py line 43,
`probs.max()`; line 32 is the same per-row via `.max(axis=1)`). -/
def npMax : List ℚ → ℚ
  | [] => 0
  | p :: ps => ps.foldl max p

/-- Modelled from the spec: the trained classifier of
`models/expense_model.pkl` is absent from src/ (no training script is in
the repository), so `model.predict` is modelled per the spec's Classifier
Adapter / Confidence Resolver contract as scikit-learn classifiers
implement it: `classes_[argmax(predict_proba)]`, where `classes_` is the
ascending-sorted label list and `argmax` takes the first maximal index. -/
def modelPredict (classes : List String) (probs : List ℚ) : String :=
  classes.getD (probs.indexOf (npMax probs)) ""

/-- The `(prediction, confidence)` pair printed by the `--text` branch of
src/predict.py (lines 40-43): label from `model.predict`, confidence
`probs.max()`. -/
def textPrediction (classes : List String) (probs : List ℚ) : String × ℚ :=
  (modelPredict classes probs, npMax probs)

/-! ### Keyword categorizer (src/load_data.py) -/

/-- The module-level `CATEGORY_MAP` dict of src/load_data.py. -/
def CATEGORY_MAP : List (String × String) :=
  [("coffee", "Food & Drink"),
   ("groceries", "Food & Drink"),
   ("internet", "Utilities"),
   ("rent", "Housing"),
   ("movie", "Entertainment")]

/-- The per-row category of `categorize_expenses`:
`description.str.lower().map(CATEGORY_MAP).fillna("Other")` — pandas
`Series.map` with a dict looks the whole lowercased string up as a key and
yields NaN on a miss, which `fillna` replaces by `"Other"`. -/
def categorizeOne (description : String) : String :=
  (CATEGORY_MAP.lookup (pyLower description)).getD "Other"

/-- `categorize_expenses` on the `description` column of the frame. -/
def categorize_expenses (descriptions : List String) : List String :=
  descriptions.map categorizeOne

/-! ### Argument branching of src/predict.py's main -/

/-- Which branch of `main` runs (the parts with file side effects are
abstracted to the branch taken and the argument it consumes). -/
inductive MainAction where
  | dataBranch (path : String)
  | textBranch (text : String)
deriving DecidableEq, Repr

/-- Python truthiness of an optional string argument: `None` and `""` are
falsy, every other string is truthy. -/
def pyTruthy : Option String → Bool
  | none => false
  | some s => !(s == "")

/-- The `if args.data: ... elif args.text: ... else: raise ValueError(...)`
chain of src/predict.py (lines 23-50). -/
def predictMainBranch (data text : Option String) : Except PyError MainAction :=
  if pyTruthy data then .ok (.dataBranch (data.getD ""))
  else if pyTruthy text then .ok (.textBranch (text.getD ""))
  else .error (.valueError "Please provide either --data <file.csv> or --text 'expense description'.")

/-- The state frozen by fitting on the corpus
`["coffee rent", "rent"]` (used as a concrete evaluation point). -/
def cexState : FittedState :=
  { vocab := ["coffee", "rent"], nDocs := 2, dfs := [1, 2] }

/-! ## Theorems -/

/-- C7: transforming with a vectorizer that has not had a prior successful
fit fails with `NotFittedError` (scikit-learn's `_check_vocabulary`),
whatever the documents are. -/
theorem c7_transform_before_fit_not_fitted (docs : List String) :
    TfidfVectorizer.new.transform docs =
      .error (.notFittedError "Vocabulary not fitted or provided") := rfl

/-- C8, counterexample: a second `fit` on an already fitted instance does
not raise `AlreadyFittedError`; it succeeds and replaces the frozen state
(here refitting the instance fitted on `["coffee rent", "rent"]` with the
corpus `["pizza"]`). -/
theorem c8_counterexample :
    TfidfVectorizer.new.fit ["coffee rent", "rent"] = .ok ⟨some cexState⟩ ∧
    (⟨some cexState⟩ : TfidfVectorizer).fit ["pizza"] ≠
      .error .alreadyFittedError ∧
    (⟨some cexState⟩ : TfidfVectorizer).fit ["pizza"] =
      .ok ⟨some { vocab := ["pizza"], nDocs := 1, dfs := [1] }⟩ := by
  refine ⟨by decide, by decide, by decide⟩

/-- C8, amended: `fit` may be called again on a fitted instance; the second
call never consults the previous state, succeeds whenever the new corpus
yields a vocabulary, and replaces the frozen state wholesale. -/
theorem c8_refit_replaces_state (v : TfidfVectorizer) (docs : List String)
    (st : FittedState) (h : fitResult docs = .ok st) :
    v.fit docs = .ok ⟨some st⟩ := by
  unfold TfidfVectorizer.fit
  rw [h]

/-- Witness for `c8_refit_replaces_state` at a concrete refit. -/
theorem c8_refit_replaces_state_witness :
    fitResult ["pizza"] = .ok { vocab := ["pizza"], nDocs := 1, dfs := [1] } ∧
    (⟨some cexState⟩ : TfidfVectorizer).fit ["pizza"] =
      .ok ⟨some { vocab := ["pizza"], nDocs := 1, dfs := [1] }⟩ :=
  ⟨by decide, c8_refit_replaces_state ⟨some cexState⟩ ["pizza"] _ (by decide)⟩

/-- C4, counterexample: `fit([])` does not raise the specification's
`EmptyCorpusError` (no such exception class exists in the code); it raises
scikit-learn's `ValueError` about an empty vocabulary. -/
theorem c4_counterexample :
    TfidfVectorizer.new.fit [] ≠ .error .emptyCorpusError ∧
    TfidfVectorizer.new.fit [] =
      .error (.valueError "empty vocabulary; perhaps the documents only contain stop words") := by
  refine ⟨by decide, by decide⟩

/-- C4, amended: fitting on an empty document sequence, or on one where
every document tokenizes to zero terms, fails — but with `ValueError`
("empty vocabulary; perhaps the documents only contain stop words"), the
only empty-corpus exception the code has. -/
theorem c4_empty_corpus_value_error (v : TfidfVectorizer) (docs : List String)
    (h : ∀ d ∈ docs, tokenize d = []) :
    v.fit docs =
      .error (.valueError "empty vocabulary; perhaps the documents only contain stop words") := by
  have hterms : corpusTerms docs = [] := by
    unfold corpusTerms
    rw [List.flatten_eq_nil_iff]
    intro l hl
    rcases List.mem_map.mp hl with ⟨d, hd, rfl⟩
    exact h d hd
  unfold TfidfVectorizer.fit fitResult vocabList
  rw [hterms]
  rfl

/-- Witness for `c4_empty_corpus_value_error`: every document of
`["", "at the"]` tokenizes to no terms ("at" and "the" are stop words). -/
theorem c4_empty_corpus_value_error_witness :
    (∀ d ∈ ["", "at the"], tokenize d = []) ∧
    TfidfVectorizer.new.fit ["", "at the"] =
      .error (.valueError "empty vocabulary; perhaps the documents only contain stop words") :=
  ⟨by decide, c4_empty_corpus_value_error TfidfVectorizer.new ["", "at the"] (by decide)⟩

/-- C10, counterexample: with `--data ""` and `--text "coffee"` both
supplied, the `--text` branch runs (Python truthiness treats the empty
string as falsy), contradicting "if both are supplied, only the `--data`
branch runs". -/
theorem c10_counterexample :
    predictMainBranch (some "") (some "coffee") = .ok (.textBranch "coffee") ∧
    predictMainBranch (some "") (some "coffee") ≠ .ok (.dataBranch "") := by
  refine ⟨by decide, by decide⟩

/-- C10, amended: whenever each of `--data` and `--text` is absent or the
empty string (Python truthiness treats a supplied empty string exactly
like an absent argument), `main` raises `ValueError("Please provide
either --data <file.csv> or --text 'expense description'.")`; when
`--data` is supplied with a non-empty (truthy) value, only the `--data`
branch runs whatever `--text` is. -/
theorem c10_branch_selection (data text : Option String) :
    ((data = none ∨ data = some "") → (text = none ∨ text = some "") →
      predictMainBranch data text =
        .error (.valueError "Please provide either --data <file.csv> or --text 'expense description'.")) ∧
    (∀ d, data = some d → d ≠ "" →
      predictMainBranch data text = .ok (.dataBranch d)) := by
  constructor
  · rintro (rfl | rfl) (rfl | rfl) <;> rfl
  · rintro d rfl hd
    simp [predictMainBranch, pyTruthy, hd]

/-- Witness for `c10_branch_selection`: with `--data "expenses.csv"` and
`--text "coffee"` both supplied, the data branch runs; with `--data ""`
and `--text ""` both supplied, and with `--data ""` alone supplied, the
`ValueError` is raised. -/
theorem c10_branch_selection_witness :
    predictMainBranch (some "expenses.csv") (some "coffee") =
      .ok (.dataBranch "expenses.csv") ∧
    predictMainBranch (some "") (some "") =
      .error (.valueError "Please provide either --data <file.csv> or --text 'expense description'.") ∧
    predictMainBranch (some "") none =
      .error (.valueError "Please provide either --data <file.csv> or --text 'expense description'.") :=
  ⟨(c10_branch_selection (some "expenses.csv") (some "coffee")).2
      "expenses.csv" rfl (by decide),
   (c10_branch_selection (some "") (some "")).1 (.inr rfl) (.inr rfl),
   (c10_branch_selection (some "") none).1 (.inr rfl) (.inl rfl)⟩

/-- C2, counterexample: on the corpus `["rent coffee"]` the code's
vocabulary is the alphabetically sorted `["coffee", "rent"]`, not the
first-appearance order `["rent", "coffee"]` demanded by the spec:
"rent" appears first yet receives index 1. -/
theorem c2_counterexample :
    vocabList ["rent coffee"] ≠ specFirstAppearanceVocab ["rent coffee"] ∧
    vocabList ["rent coffee"] = ["coffee", "rent"] ∧
    specFirstAppearanceVocab ["rent coffee"] = ["rent", "coffee"] ∧
    (vocabList ["rent coffee"]).indexOf "rent" = 1 := by
  refine ⟨by decide, by decide, by decide, by decide⟩

/-! Order-theoretic facts about the modelled Python string comparison,
and the distinctness of the accumulated term list, used to settle the
vocabulary-ordering claim. -/

theorem charListLe_refl (as : List Char) : charListLe as as = true := by
  induction as with
  | nil => rfl
  | cons a as ih => simp [charListLe, lt_irrefl, ih]

theorem charListLe_total (as bs : List Char) :
    charListLe as bs = true ∨ charListLe bs as = true := by
  induction as generalizing bs with
  | nil => exact .inl rfl
  | cons a as ih =>
    cases bs with
    | nil => exact .inr rfl
    | cons b bs =>
      rcases lt_trichotomy a b with h | h | h
      · exact .inl (by simp [charListLe, h])
      · subst h
        rcases ih bs with h' | h'
        · exact .inl (by simp [charListLe, lt_irrefl, h'])
        · exact .inr (by simp [charListLe, lt_irrefl, h'])
      · exact .inr (by simp [charListLe, h])

theorem charListLe_cons_iff {a b : Char} {as bs : List Char} :
    charListLe (a :: as) (b :: bs) = true ↔
      (a < b ∨ (a = b ∧ charListLe as bs = true)) := by
  rcases lt_trichotomy a b with h | h | h
  · simp [charListLe, h]
  · subst h
    simp [charListLe, lt_irrefl]
  · simp [charListLe, lt_asymm h, h, h.ne']

theorem charListLe_trans {as bs cs : List Char}
    (h₁ : charListLe as bs = true) (h₂ : charListLe bs cs = true) :
    charListLe as cs = true := by
  induction as generalizing bs cs with
  | nil => rfl
  | cons a as ih =>
    cases bs with
    | nil => simp [charListLe] at h₁
    | cons b bs =>
      cases cs with
      | nil => simp [charListLe] at h₂
      | cons c cs =>
        rcases charListLe_cons_iff.mp h₁ with hab | ⟨rfl, h₁'⟩
        · rcases charListLe_cons_iff.mp h₂ with hbc | ⟨rfl, _⟩
          · exact charListLe_cons_iff.mpr (.inl (lt_trans hab hbc))
          · exact charListLe_cons_iff.mpr (.inl hab)
        · rcases charListLe_cons_iff.mp h₂ with hbc | ⟨rfl, h₂'⟩
          · exact charListLe_cons_iff.mpr (.inl hbc)
          · exact charListLe_cons_iff.mpr (.inr ⟨rfl, ih h₁' h₂'⟩)

theorem charListLe_antisymm {as bs : List Char}
    (h₁ : charListLe as bs = true) (h₂ : charListLe bs as = true) :
    as = bs := by
  induction as generalizing bs with
  | nil =>
    cases bs with
    | nil => rfl
    | cons b bs => simp [charListLe] at h₂
  | cons a as ih =>
    cases bs with
    | nil => simp [charListLe] at h₁
    | cons b bs =>
      rcases charListLe_cons_iff.mp h₁ with hab | ⟨rfl, h₁'⟩
      · rcases charListLe_cons_iff.mp h₂ with hba | ⟨hba, _⟩
        · exact absurd hba (lt_asymm hab)
        · exact absurd hba.symm (ne_of_lt hab)
      · rcases charListLe_cons_iff.mp h₂ with hba | ⟨_, h₂'⟩
        · exact absurd hba (lt_irrefl a)
        · rw [ih h₁' h₂']

instance : IsTotal String strleP :=
  ⟨fun a b => charListLe_total a.data b.data⟩

instance : IsTrans String strleP :=
  ⟨fun _ _ _ h₁ h₂ => charListLe_trans h₁ h₂⟩

theorem strleP_antisymm {a b : String} (h₁ : strleP a b) (h₂ : strleP b a) :
    a = b := by
  cases a; cases b
  exact congrArg String.mk (charListLe_antisymm h₁ h₂)

theorem firstSeenDistinct_cons_of_seen {u : String} {seen : List String}
    (us : List String) (hu : seen.contains u = true) :
    firstSeenDistinct (u :: us) seen = firstSeenDistinct us seen := by
  simp only [firstSeenDistinct]
  rw [if_pos hu]

theorem firstSeenDistinct_cons_of_not_seen {u : String} {seen : List String}
    (us : List String) (hu : ¬ seen.contains u = true) :
    firstSeenDistinct (u :: us) seen =
      u :: firstSeenDistinct us (u :: seen) := by
  simp only [firstSeenDistinct]
  rw [if_neg hu]

theorem mem_firstSeenDistinct (l : List String) :
    ∀ (seen : List String) (t : String),
      t ∈ firstSeenDistinct l seen ↔ (t ∈ l ∧ t ∉ seen) := by
  induction l with
  | nil => intro seen t; simp [firstSeenDistinct]
  | cons u us ih =>
    intro seen t
    by_cases hu : seen.contains u
    · have humem : u ∈ seen := by simpa using hu
      rw [firstSeenDistinct_cons_of_seen us hu]
      rw [ih seen t]
      constructor
      · rintro ⟨h₁, h₂⟩
        exact ⟨List.mem_cons_of_mem u h₁, h₂⟩
      · rintro ⟨h₁, h₂⟩
        rcases List.mem_cons.mp h₁ with rfl | h₁
        · exact absurd humem h₂
        · exact ⟨h₁, h₂⟩
    · have humem : u ∉ seen := by simpa using hu
      rw [firstSeenDistinct_cons_of_not_seen us hu]
      rw [List.mem_cons, ih (u :: seen) t]
      constructor
      · rintro (rfl | ⟨h₁, h₂⟩)
        · exact ⟨List.mem_cons_self t us, humem⟩
        · refine ⟨List.mem_cons_of_mem u h₁, fun hs => h₂ (List.mem_cons_of_mem u hs)⟩
      · rintro ⟨h₁, h₂⟩
        by_cases ht : t = u
        · exact .inl ht
        · rcases List.mem_cons.mp h₁ with rfl | h₁
          · exact absurd rfl ht
          · exact .inr ⟨h₁, fun hs => by
              rcases List.mem_cons.mp hs with rfl | hs
              · exact ht rfl
              · exact h₂ hs⟩

theorem nodup_firstSeenDistinct (l : List String) :
    ∀ seen : List String, (firstSeenDistinct l seen).Nodup := by
  induction l with
  | nil => intro seen; simp [firstSeenDistinct]
  | cons u us ih =>
    intro seen
    by_cases hu : seen.contains u
    · rw [firstSeenDistinct_cons_of_seen us hu]
      exact ih seen
    · rw [firstSeenDistinct_cons_of_not_seen us hu]
      refine List.Nodup.cons ?_ (ih (u :: seen))
      intro hmem
      exact ((mem_firstSeenDistinct us (u :: seen) u).mp hmem).2
        (List.mem_cons_self u seen)

/-- C2, amended: the Vocabulary Builder assigns each distinct term an
integer index in ascending lexicographic (Python string) order of the
terms, not in order of first appearance: the vocabulary list is strictly
sorted under the code-point string order, duplicate-free, and contains
exactly the terms of the tokenized corpus. -/
theorem c2_vocab_sorted_lexicographic (docs : List String) :
    (vocabList docs).Pairwise (fun a b => strleP a b ∧ a ≠ b) ∧
    (∀ t, t ∈ vocabList docs ↔ t ∈ corpusTerms docs) ∧
    (vocabList docs).Nodup := by
  have hperm : (vocabList docs).Perm (firstSeenDistinct (corpusTerms docs) []) :=
    List.perm_insertionSort strleP (firstSeenDistinct (corpusTerms docs) [])
  have hnodup : (vocabList docs).Nodup :=
    (hperm.nodup_iff).mpr (nodup_firstSeenDistinct (corpusTerms docs) [])
  have hsorted : (vocabList docs).Sorted strleP :=
    List.sorted_insertionSort strleP (firstSeenDistinct (corpusTerms docs) [])
  refine ⟨hsorted.imp₂ (fun _ _ hle hne => ⟨hle, hne⟩) hnodup, ?_, hnodup⟩
  intro t
  rw [hperm.mem_iff, mem_firstSeenDistinct]
  simp

/-- A key present in an association list is found by `List.lookup`. -/
theorem lookup_ne_none_of_mem {l : List (String × String)} {k v : String}
    (hmem : (k, v) ∈ l) : l.lookup k ≠ none := by
  induction l with
  | nil => simp at hmem
  | cons p ps ih =>
    rcases p with ⟨k', v'⟩
    by_cases hk : k = k'
    · subst hk
      simp [List.lookup]
    · rcases List.mem_cons.mp hmem with hp | hmem'
      · exact absurd (congrArg Prod.fst hp) hk
      · rw [show List.lookup k ((k', v') :: ps) = List.lookup k ps by
          simp [List.lookup, beq_eq_false_iff_ne.mpr hk]]
        exact ih hmem'

/-- A successful `List.lookup` exhibits a member pair. -/
theorem mem_of_lookup_some {l : List (String × String)} {k v : String}
    (h : l.lookup k = some v) : (k, v) ∈ l := by
  induction l with
  | nil => simp [List.lookup] at h
  | cons p ps ih =>
    rcases p with ⟨k', v'⟩
    by_cases hk : k = k'
    · subst hk
      simp [List.lookup] at h
      simp [h]
    · rw [show List.lookup k ((k', v') :: ps) = List.lookup k ps by
        simp [List.lookup, beq_eq_false_iff_ne.mpr hk]] at h
      exact List.mem_cons_of_mem _ (ih h)

/-- C9: `categorize_expenses` maps each description to
`CATEGORY_MAP[description.lower()]` only on an exact whole-string key
match and to `"Other"` otherwise; every row gets a (non-null) category,
and in particular `"coffee at starbucks"` yields `"Other"`, not
`"Food & Drink"`, even though `"coffee"` alone is a key. -/
theorem c9_exact_match_categorization (descriptions : List String) :
    categorize_expenses descriptions = descriptions.map categorizeOne ∧
    (∀ d, (pyLower d, categorizeOne d) ∈ CATEGORY_MAP ∨
      (categorizeOne d = "Other" ∧ ∀ c, (pyLower d, c) ∉ CATEGORY_MAP)) ∧
    categorizeOne "coffee at starbucks" = "Other" ∧
    categorizeOne "coffee at starbucks" ≠ "Food & Drink" := by
  refine ⟨rfl, ?_, by decide, by decide⟩
  intro d
  rcases h : CATEGORY_MAP.lookup (pyLower d) with _ | c
  · refine .inr ⟨by simp [categorizeOne, h], ?_⟩
    intro c hc
    exact lookup_ne_none_of_mem hc h
  · refine .inl ?_
    have hcat : categorizeOne d = c := by simp [categorizeOne, h]
    rw [hcat]
    exact mem_of_lookup_some h

/-- A successful fit freezes exactly the sorted vocabulary, the corpus
size and the per-term document frequencies. -/
theorem fitResult_ok_eq {docs : List String} {st : FittedState}
    (hfit : fitResult docs = .ok st) :
    st = { vocab := vocabList docs, nDocs := docs.length,
           dfs := (vocabList docs).map (docFreq docs) } := by
  unfold fitResult at hfit
  by_cases hv : (vocabList docs).isEmpty
  · rw [if_pos hv] at hfit
    exact absurd hfit (by simp)
  · rw [if_neg hv] at hfit
    injection hfit with hst
    rw [← hst]

/-- The smoothed idf weight is at least 1 whenever `df ≤ n`. -/
theorem one_le_idfWeight {n df : Nat} (h : df ≤ n) : 1 ≤ idfWeight n df := by
  unfold idfWeight
  have hdfpos : (0 : ℝ) < 1 + (df : ℝ) := by positivity
  have hone : (1 : ℝ) ≤ (1 + (n : ℝ)) / (1 + (df : ℝ)) := by
    rw [le_div_iff₀ hdfpos]
    have : (df : ℝ) ≤ (n : ℝ) := Nat.cast_le.mpr h
    linarith
  have := Real.log_nonneg hone
  linarith

/-- A term's document frequency never exceeds the corpus size. -/
theorem docFreq_le_length (docs : List String) (t : String) :
    docFreq docs t ≤ docs.length :=
  List.length_filter_le _ docs

/-- C3: for every successfully fitted state and every index of the
vocabulary, the stored idf weight satisfies exactly
`idf(t) = ln((1 + N) / (1 + df(t))) + 1`, with `N` the number of training
documents and `df(t)` the number of training documents containing `t`, and
the weight is (strictly) positive. -/
theorem c3_smoothed_idf_formula (docs : List String) (st : FittedState)
    (j : Nat) (hfit : fitResult docs = .ok st) (hj : j < st.vocab.length) :
    st.idf j =
      Real.log ((1 + (docs.length : ℝ)) /
        (1 + (docFreq docs (st.vocab.get ⟨j, hj⟩) : ℝ))) + 1 ∧
    0 < st.idf j := by
  have hst := fitResult_ok_eq hfit
  subst hst
  have hjl : j < ((vocabList docs).map (docFreq docs)).length := by
    simpa using hj
  have hdfsj : ((vocabList docs).map (docFreq docs)).getD j 0 =
      docFreq docs ((vocabList docs).get ⟨j, hj⟩) := by
    rw [List.getD_eq_getElem _ _ hjl, List.getElem_map, List.get_eq_getElem]
  have hform : idfWeight docs.length
      (((vocabList docs).map (docFreq docs)).getD j 0) =
      Real.log ((1 + (docs.length : ℝ)) /
        (1 + (docFreq docs ((vocabList docs).get ⟨j, hj⟩) : ℝ))) + 1 := by
    unfold idfWeight
    rw [hdfsj]
  refine ⟨hform, ?_⟩
  have hpos : 1 ≤ idfWeight docs.length
      (((vocabList docs).map (docFreq docs)).getD j 0) := by
    refine one_le_idfWeight ?_
    rw [List.getD_eq_getElem _ _ hjl, List.getElem_map]
    exact docFreq_le_length docs _
  show (0 : ℝ) < idfWeight docs.length
    (((vocabList docs).map (docFreq docs)).getD j 0)
  linarith

/-- Witness for `c3_smoothed_idf_formula`: the state fitted on
`["coffee rent", "rent"]`, index 0 ("coffee"). -/
theorem c3_smoothed_idf_formula_witness :
    fitResult ["coffee rent", "rent"] = .ok cexState ∧
    (cexState.idf 0 =
      Real.log ((1 + ((["coffee rent", "rent"] : List String).length : ℝ)) /
        (1 + (docFreq ["coffee rent", "rent"]
          (cexState.vocab.get ⟨0, by decide⟩) : ℝ))) + 1 ∧
     0 < cexState.idf 0) :=
  ⟨by decide,
   c3_smoothed_idf_formula ["coffee rent", "rent"] cexState 0 (by decide) (by decide)⟩

/-- In a raw tf-idf row of a document with no in-vocabulary term, every
entry is zero. -/
theorem rawTfidfRow_eq_zero_of_unknown {st : FittedState} {doc : String}
    (h : ∀ t ∈ tokenize doc, t ∉ st.vocab) :
    ∀ x ∈ rawTfidfRow st doc, x = 0 := by
  intro x hx
  rcases List.mem_map.mp hx with ⟨j, hj, rfl⟩
  have hjlt : j < st.vocab.length := List.mem_range.mp hj
  have hvmem : st.vocab.getD j "" ∈ st.vocab := by
    rw [List.getD_eq_getElem?_getD, List.getElem?_eq_getElem hjlt]
    exact List.getElem_mem hjlt
  have hcount : termCount doc (st.vocab.getD j "") = 0 := by
    by_contra hc
    have hmem : st.vocab.getD j "" ∈ tokenize doc :=
      List.count_pos_iff.mp (Nat.pos_of_ne_zero hc)
    exact h _ hmem hvmem
  rw [hcount]
  simp

/-- C6: transforming a document whose terms are all absent from the fitted
vocabulary raises no error and leaves the vocabulary untouched (the fitted
state is read-only): it yields exactly one row, of dimensionality
`|vocabulary|`, with every entry zero. -/
theorem c6_unknown_terms_zero_vector (st : FittedState) (doc : String)
    (h : ∀ t ∈ tokenize doc, t ∉ st.vocab) :
    TfidfVectorizer.transform ⟨some st⟩ [doc] = .ok [st.transformRow doc] ∧
    (st.transformRow doc).length = st.vocab.length ∧
    ∀ j, (st.transformRow doc).getD j 0 = 0 := by
  have hzero := rawTfidfRow_eq_zero_of_unknown h
  have hnorm : l2Norm (rawTfidfRow st doc) = 0 := by
    unfold l2Norm
    have : ((rawTfidfRow st doc).map (fun x => x ^ 2)).sum = 0 := by
      apply List.sum_eq_zero
      intro y hy
      rcases List.mem_map.mp hy with ⟨x, hx, rfl⟩
      rw [hzero x hx]
      ring
    rw [this, Real.sqrt_zero]
  have hrow : st.transformRow doc = rawTfidfRow st doc := by
    unfold FittedState.transformRow normalizeL2
    rw [if_pos hnorm]
  have hlen : (st.transformRow doc).length = st.vocab.length := by
    rw [hrow]
    unfold rawTfidfRow
    rw [List.length_map, List.length_range]
  refine ⟨rfl, hlen, ?_⟩
  intro j
  rw [hrow]
  by_cases hj : j < (rawTfidfRow st doc).length
  · rw [List.getD_eq_getElem _ _ hj]
    exact hzero _ (List.getElem_mem hj)
  · rw [List.getD_eq_default _ _ (Nat.le_of_not_lt hj)]

/-- The length of a raw tf-idf row is the vocabulary size. -/
theorem rawTfidfRow_length (st : FittedState) (doc : String) :
    (rawTfidfRow st doc).length = st.vocab.length := by
  unfold rawTfidfRow
  rw [List.length_map, List.length_range]

/-- C1, amended: for every fitted state, each present entry of the
produced Feature Vector equals `tf(t, d) * idf(t)` DIVIDED BY the
Euclidean norm of the document's raw tf-idf vector: scikit-learn's
default `norm="l2"` applies L2 normalization after the tf-idf product
(all-zero rows are returned unchanged). -/
theorem c1_l2_normalized_entries (st : FittedState) (doc : String) (j : Nat)
    (hnorm : l2Norm (rawTfidfRow st doc) ≠ 0) (hj : j < st.vocab.length) :
    (st.transformRow doc).getD j 0 =
      ((termCount doc (st.vocab.get ⟨j, hj⟩) : ℝ) * st.idf j) /
        l2Norm (rawTfidfRow st doc) := by
  have hjr : j < (rawTfidfRow st doc).length := by
    rw [rawTfidfRow_length]; exact hj
  have hrow : st.transformRow doc =
      (rawTfidfRow st doc).map (fun x => x / l2Norm (rawTfidfRow st doc)) := by
    unfold FittedState.transformRow normalizeL2
    rw [if_neg hnorm]
  rw [hrow]
  have hjm : j < ((rawTfidfRow st doc).map
      (fun x => x / l2Norm (rawTfidfRow st doc))).length := by
    rw [List.length_map]; exact hjr
  rw [List.getD_eq_getElem _ _ hjm]
  simp only [List.getElem_map]
  congr 1
  simp only [rawTfidfRow, List.getElem_map, List.getElem_range]
  rw [List.getD_eq_getElem _ _ hj, List.get_eq_getElem]

/-- The idf weight of "rent" in the state fitted on
`["coffee rent", "rent"]`: df = N = 2, so the smoothed idf is exactly 1. -/
theorem cexState_idf_one : cexState.idf 1 = 1 := by
  show idfWeight 2 2 = 1
  unfold idfWeight
  norm_num

/-- The idf weight of "coffee" in the state fitted on
`["coffee rent", "rent"]` exceeds 1 (df = 1 < N = 2). -/
theorem cexState_idf_zero_gt_one : 1 < cexState.idf 0 := by
  show 1 < idfWeight 2 1
  unfold idfWeight
  have hlog : 0 < Real.log ((1 + ((2 : Nat) : ℝ)) / (1 + ((1 : Nat) : ℝ))) := by
    apply Real.log_pos
    norm_num
  linarith

/-- The raw tf-idf row of `"coffee rent"` under `cexState`. -/
theorem cexState_raw_coffee_rent :
    rawTfidfRow cexState "coffee rent" = [cexState.idf 0, 1] := by
  show (List.range 2).map _ = _
  rw [show List.range 2 = [0, 1] from rfl]
  simp only [List.map_cons, List.map_nil]
  rw [show termCount "coffee rent" (cexState.vocab.getD 0 "") = 1 from by decide,
    show termCount "coffee rent" (cexState.vocab.getD 1 "") = 1 from by decide,
    cexState_idf_one]
  norm_num

/-- C1, counterexample: on the two-document corpus
`["coffee rent", "rent"]`, the entry of the transformed `"coffee rent"`
at the index of `"rent"` differs from `tf * idf` (which is `1 * 1 = 1`):
the row was divided by its Euclidean norm, which exceeds 1. -/
theorem c1_counterexample :
    fitResult ["coffee rent", "rent"] = .ok cexState ∧
    (cexState.transformRow "coffee rent").getD 1 0 ≠
      (termCount "coffee rent" "rent" : ℝ) * cexState.idf 1 := by
  refine ⟨by decide, ?_⟩
  have hx := cexState_idf_zero_gt_one
  have hnormgt : 1 < l2Norm (rawTfidfRow cexState "coffee rent") := by
    rw [cexState_raw_coffee_rent]
    unfold l2Norm
    simp only [List.map_cons, List.map_nil, List.sum_cons, List.sum_nil]
    rw [(Real.lt_sqrt (by norm_num : (0 : ℝ) ≤ 1))]
    nlinarith [hx]
  have hpos : 0 < l2Norm (rawTfidfRow cexState "coffee rent") := by linarith
  have hne : l2Norm (rawTfidfRow cexState "coffee rent") ≠ 0 := ne_of_gt hpos
  have hlhs : (cexState.transformRow "coffee rent").getD 1 0 =
      1 / l2Norm (rawTfidfRow cexState "coffee rent") := by
    unfold FittedState.transformRow normalizeL2
    rw [if_neg hne, cexState_raw_coffee_rent]
    rfl
  rw [hlhs, cexState_idf_one,
    show (termCount "coffee rent" "rent" : ℝ) = 1 by
      rw [show termCount "coffee rent" "rent" = 1 from by decide]; norm_num,
    mul_one]
  have hlt : 1 / l2Norm (rawTfidfRow cexState "coffee rent") < 1 := by
    rw [div_lt_one hpos]
    exact hnormgt
  exact ne_of_lt hlt

/-- Witness for `c1_l2_normalized_entries`: the document `"rent"` under
`cexState` has raw row `[0, 1]` of norm 1. -/
theorem c1_l2_normalized_entries_witness :
    l2Norm (rawTfidfRow cexState "rent") ≠ 0 ∧
    (cexState.transformRow "rent").getD 0 0 =
      ((termCount "rent" (cexState.vocab.get ⟨0, by decide⟩) : ℝ) *
        cexState.idf 0) / l2Norm (rawTfidfRow cexState "rent") := by
  have hraw : rawTfidfRow cexState "rent" = [0, 1] := by
    show (List.range 2).map _ = _
    rw [show List.range 2 = [0, 1] from rfl]
    simp only [List.map_cons, List.map_nil]
    rw [show termCount "rent" (cexState.vocab.getD 0 "") = 0 from by decide,
      show termCount "rent" (cexState.vocab.getD 1 "") = 1 from by decide,
      cexState_idf_one]
    norm_num
  have hnorm : l2Norm (rawTfidfRow cexState "rent") = 1 := by
    rw [hraw]
    unfold l2Norm
    simp only [List.map_cons, List.map_nil, List.sum_cons, List.sum_nil]
    rw [show (0 : ℝ) ^ 2 + (1 ^ 2 + 0) = 1 by norm_num]
    exact Real.sqrt_one
  have hne : l2Norm (rawTfidfRow cexState "rent") ≠ 0 := by
    rw [hnorm]; norm_num
  exact ⟨hne, c1_l2_normalized_entries cexState "rent" 0 hne (by decide)⟩

/-- Witness for `c6_unknown_terms_zero_vector`: the document
`"pizza starbucks"` shares no term with the vocabulary fitted on
`["coffee rent", "rent"]`. -/
theorem c6_unknown_terms_zero_vector_witness :
    (∀ t ∈ tokenize "pizza starbucks", t ∉ cexState.vocab) ∧
    ((cexState.transformRow "pizza starbucks").length =
      cexState.vocab.length ∧
     ∀ j, (cexState.transformRow "pizza starbucks").getD j 0 = 0) :=
  ⟨by decide,
   (c6_unknown_terms_zero_vector cexState "pizza starbucks" (by decide)).2⟩

/-- A left fold of `max` dominates its seed and every list element, and
returns its seed or a list element. -/
theorem foldl_max_spec (l : List ℚ) : ∀ a : ℚ,
    a ≤ l.foldl max a ∧ (∀ x ∈ l, x ≤ l.foldl max a) ∧
    (l.foldl max a = a ∨ l.foldl max a ∈ l) := by
  induction l with
  | nil => intro a; simp
  | cons b bs ih =>
    intro a
    obtain ⟨h1, h2, h3⟩ := ih (max a b)
    simp only [List.foldl_cons]
    refine ⟨le_trans (le_max_left a b) h1, ?_, ?_⟩
    · intro x hx
      rcases List.mem_cons.mp hx with rfl | hx
      · exact le_trans (le_max_right a x) h1
      · exact h2 x hx
    · rcases h3 with h3 | h3
      · rcases max_choice a b with hm | hm
        · exact .inl (by rw [h3, hm])
        · exact .inr (by rw [h3, hm]; exact List.mem_cons_self b bs)
      · exact .inr (List.mem_cons_of_mem b h3)

/-- `numpy`'s `.max()` of a nonempty row is an element of the row. -/
theorem npMax_mem {l : List ℚ} (h : l ≠ []) : npMax l ∈ l := by
  cases l with
  | nil => exact absurd rfl h
  | cons p ps =>
    rcases (foldl_max_spec ps p).2.2 with h3 | h3
    · rw [show npMax (p :: ps) = ps.foldl max p from rfl, h3]
      exact List.mem_cons_self p ps
    · exact List.mem_cons_of_mem p h3

/-- `numpy`'s `.max()` dominates every element of the row. -/
theorem le_npMax {l : List ℚ} : ∀ p ∈ l, p ≤ npMax l := by
  cases l with
  | nil => simp
  | cons p ps =>
    intro x hx
    rcases List.mem_cons.mp hx with rfl | hx
    · exact (foldl_max_spec ps x).1
    · exact (foldl_max_spec ps p).2.1 x hx

/-- The first index whose entry equals `a` is `indexOf a`: any index with
that entry is at least `indexOf a`. -/
theorem indexOf_le_of_getD_eq {l : List ℚ} {a : ℚ} :
    ∀ {i : Nat}, i < l.length → l.getD i 0 = a → l.indexOf a ≤ i := by
  induction l with
  | nil => intro i hi; simp at hi
  | cons b bs ih =>
    intro i hi h
    cases i with
    | zero =>
      have hb : b = a := by simpa using h
      subst hb
      simp [List.indexOf_cons_self]
    | succ i =>
      by_cases hb : b = a
      · subst hb
        simp [List.indexOf_cons_self]
      · rw [List.indexOf_cons_ne _ (by exact hb)]
        have hi' : i < bs.length := by simpa using hi
        have h' : bs.getD i 0 = a := by simpa using h
        exact Nat.succ_le_succ (ih hi' h')

/-- C5 (the classifier itself is not in src/: `models/expense_model.pkl`
is loaded ready-made, so `model.predict` is modelled per the spec's
resolver contract as scikit-learn classifiers implement it, while the
confidence is the literal `probs.max()` of src/predict.py): given the
ascending-sorted class list of a fitted scikit-learn classifier and a
nonempty probability row, the reported confidence is exactly the maximum
of the distribution's values (it is attained and dominates every entry),
and the predicted label is one carrying the maximum probability, the
lexicographically smallest such label (Python string order `strleP`). -/
theorem c5_confidence_is_max_with_lex_tie_break
    (classes : List String) (probs : List ℚ)
    (hlen : classes.length = probs.length) (hne : probs ≠ [])
    (hsort : classes.Pairwise (fun a b => strleP a b ∧ a ≠ b)) :
    (textPrediction classes probs).2 ∈ probs ∧
    (∀ p ∈ probs, p ≤ (textPrediction classes probs).2) ∧
    (∃ i, i < probs.length ∧
      probs.getD i 0 = (textPrediction classes probs).2 ∧
      classes.getD i "" = (textPrediction classes probs).1) ∧
    (∀ i, i < probs.length →
      probs.getD i 0 = (textPrediction classes probs).2 →
      strleP (textPrediction classes probs).1 (classes.getD i "")) := by
  have hconf : (textPrediction classes probs).2 = npMax probs := rfl
  have hmem : npMax probs ∈ probs := npMax_mem hne
  have hidx : probs.indexOf (npMax probs) < probs.length :=
    List.indexOf_lt_length.mpr hmem
  have hidxc : probs.indexOf (npMax probs) < classes.length := by
    rw [hlen]; exact hidx
  refine ⟨hconf ▸ hmem, fun p hp => hconf ▸ le_npMax p hp, ?_, ?_⟩
  · refine ⟨probs.indexOf (npMax probs), hidx, ?_, rfl⟩
    rw [hconf, List.getD_eq_getElem _ _ hidx]
    exact List.getElem_indexOf hidx
  · intro i hi hgd
    rw [hconf] at hgd
    have hle : probs.indexOf (npMax probs) ≤ i :=
      indexOf_le_of_getD_eq hi hgd
    have hic : i < classes.length := by rw [hlen]; exact hi
    show strleP (classes.getD (probs.indexOf (npMax probs)) "") _
    rw [List.getD_eq_getElem _ _ hidxc, List.getD_eq_getElem _ _ hic]
    rcases Nat.lt_or_ge (probs.indexOf (npMax probs)) i with hlt | hge
    · have := (List.pairwise_iff_get.mp hsort)
        ⟨probs.indexOf (npMax probs), hidxc⟩ ⟨i, hic⟩ hlt
      rw [List.get_eq_getElem, List.get_eq_getElem] at this
      exact this.1
    · have heq : probs.indexOf (npMax probs) = i := Nat.le_antisymm hle hge
      subst heq
      exact charListLe_refl _

/-- Witness for `c5_confidence_is_max_with_lex_tie_break` on the
spec's three training labels with distribution
`{Entertainment: 1/4, Food & Drink: 1/2, Housing: 1/4}`. -/
theorem c5_confidence_is_max_witness :
    textPrediction ["Entertainment", "Food & Drink", "Housing"]
      [mkRat 1 4, mkRat 1 2, mkRat 1 4] = ("Food & Drink", mkRat 1 2) ∧
    (∀ p ∈ ([mkRat 1 4, mkRat 1 2, mkRat 1 4] : List ℚ),
      p ≤ (textPrediction ["Entertainment", "Food & Drink", "Housing"]
        [mkRat 1 4, mkRat 1 2, mkRat 1 4]).2) :=
  ⟨by decide,
   (c5_confidence_is_max_with_lex_tie_break
     ["Entertainment", "Food & Drink", "Housing"]
     [mkRat 1 4, mkRat 1 2, mkRat 1 4]
     (by decide) (by decide) (by decide)).2.1⟩

end ExpenseCategorizer
